import Mathlib

/-!
Verification development for the go-logger repository (package `logger`).

The Go sources are shallowly embedded: each Lean definition below mirrors a
function or data structure of the repository, with Go machine integers
modelled as `Int`, Go `interface\x7b\x7d` argument values modelled by the
closed classification `GoValue` that the formatter performs via `reflect`
(string-keyed map / struct / other), and fallible operations returning
`Except` or `Option`.  Braces inside format strings are written with the
escapes `\x7b` and `\x7d`; they denote the literal characters, so the
embedded strings equal the Go string constants.
-/

namespace GoLogger

/-! ## Level constants (logger.go) -/

def OffsetLevel : Int := 10

def TraceLevel : Int := 0
def DebugLevel : Int := OffsetLevel + TraceLevel
def InfoLevel : Int := OffsetLevel + DebugLevel
def NoticeLevel : Int := OffsetLevel + InfoLevel
def WarningLevel : Int := OffsetLevel + NoticeLevel
def ErrorLevel : Int := OffsetLevel + WarningLevel
def CriticalLevel : Int := OffsetLevel + ErrorLevel
def AlertLevel : Int := OffsetLevel + CriticalLevel
def FatalLevel : Int := OffsetLevel + AlertLevel
def PanicLevel : Int := OffsetLevel + FatalLevel

def MinimumLevel : Int := TraceLevel
def MaximumLevel : Int := PanicLevel

def TraceName : String := "trace"
def PanicName : String := "panic"

def DefaultTypeName : String := "log"
def DefaultErrorCode : Int := 1

/-! ## Argument values

The formatter inspects each `interface\x7b\x7d` argument with `reflect` and
distinguishes string-keyed maps (`reflect.Map` whose key kind is
`reflect.String`), structs (`reflect.Struct`) and everything else.  `GoValue`
is that classification made explicit.  Scalars carry the value needed by
`fmt.Sprint`: integers exactly, strings exactly, `nil` prints as a fixed
token, slices print their elements bracketed, and any other value (floats,
errors, ...) is carried by its `fmt.Sprint` image. -/

inductive GoValue where
  | vInt (n : Int)
  | vStr (s : String)
  | vNil
  | vNamed (pairs : List (String × GoValue))
  | vObj (fields : List (String × GoValue))
  | vList (elems : List GoValue)
  | vOther (image : String)

mutual

/-- Model of `fmt.Sprint` on one argument value, as used by the
auto-append loop of `Formatter.formatMessageRecord`. -/
def GoValue.sprint : GoValue → String
  | .vInt n => toString n
  | .vStr s => s
  | .vNil => "<nil>"
  | .vNamed ps => "map[" ++ sprintPairs ps ++ "]"
  | .vObj fs => "\x7b" ++ sprintFields fs ++ "\x7d"
  | .vList es => "[" ++ sprintElems es ++ "]"
  | .vOther image => image

/-- Space-separated images of slice elements, per `fmt.Sprint` of a Go slice. -/
def sprintElems : List GoValue → String
  | [] => ""
  | [v] => v.sprint
  | v :: rest => v.sprint ++ " " ++ sprintElems rest

/-- Key:value images of map entries, per `fmt.Sprint` of a Go map. -/
def sprintPairs : List (String × GoValue) → String
  | [] => ""
  | [kv] => kv.fst ++ ":" ++ kv.snd.sprint
  | kv :: rest => kv.fst ++ ":" ++ kv.snd.sprint ++ " " ++ sprintPairs rest

/-- Space-separated field images, per `fmt.Sprint` of a Go struct. -/
def sprintFields : List (String × GoValue) → String
  | [] => ""
  | [kv] => kv.snd.sprint
  | kv :: rest => kv.snd.sprint ++ " " ++ sprintFields rest

end

/-! ## Record data model (record.go and the Level/Timestamp/Source file) -/

structure Level where
  Value : Int
  Name : String

structure Timestamp where
  Created : String

structure Source where
  Function : String
  Name : String
  Path : String
  Line : Int

/-- Log record fields, per `record.go`.  `Time` (`time.Time`, JSON tag "-")
is modelled as an abstract instant; the unexported `logger` back-reference
is not part of the data model. -/
structure Record where
  ID : GoValue
  «Type» : String
  Name : String
  Time : Int
  Level : Level
  Address : String
  Hostname : String
  Message : String
  File : Source
  Arguments : List GoValue
  Timestamp : Timestamp

/-- Zero-valued record, as produced by the Go composite literal
`Record\x7b\x7d` with all fields left at their zero values. -/
def emptyRecord : Record :=
  { ID := .vNil
    «Type» := ""
    Name := ""
    Time := 0
    Level := { Value := 0, Name := "" }
    Address := ""
    Hostname := ""
    Message := ""
    File := { Function := "", Name := "", Path := "", Line := 0 }
    Arguments := []
    Timestamp := { Created := "" } }

/-! ## Formatter configuration state (formatter.go) -/

def DefaultDateFormat : String :=
  "\x7byear\x7d-\x7bmonth\x7d-\x7bday\x7d \x7bhour\x7d:\x7bminute\x7d:\x7bsecond\x7d,\x7bmillisecond\x7d"

def DefaultFormat : String :=
  "\x7bdate\x7d - \x7bLevel | printf \"%-8s\"\x7d - \x7bfile\x7d:\x7bline\x7d:\x7bfunction\x7d(): \x7bmessage\x7d"

def DefaultPlaceholder : String := "p"

/-- Mutable configuration of a `Formatter` (the template object and the
internal buffers carry no observable state of their own). -/
structure FormatterState where
  format : String
  dateFormat : String
  placeholder : String

/-- Model of `NewFormatter`. -/
def newFormatter : FormatterState :=
  { format := DefaultFormat
    dateFormat := DefaultDateFormat
    placeholder := DefaultPlaceholder }

/-- Model of `Formatter.SetFormat`. -/
def setFormat (f : FormatterState) (format : String) : FormatterState :=
  { f with format := format }

/-- Model of `Formatter.GetFormat`. -/
def getFormat (f : FormatterState) : String :=
  f.format

/-- Model of `Formatter.SetDateFormat`. -/
def setDateFormat (f : FormatterState) (dateFormat : String) : FormatterState :=
  { f with dateFormat := dateFormat }

/-- Model of `Formatter.GetDateFormat`: the Go body reads `f.format`,
not `f.dateFormat` (formatter.go line 148), and the embedding reproduces
that faithfully. -/
def getDateFormat (f : FormatterState) : String :=
  f.format

/-- Model of `Formatter.Reset`. -/
def resetFormatter (f : FormatterState) : FormatterState :=
  { f with
    format := DefaultFormat
    dateFormat := DefaultDateFormat
    placeholder := DefaultPlaceholder }

/-! ## Message template parsing

`formatMessageRecord` hands the raw message to `text/template` with the
delimiters "\x7b" and "\x7d".  The parsed form of such a template is an
alternation of literal text and actions; `parseTemplate` performs that
split.  An unterminated action is a parse error, as in Go. -/

inductive TemplateNode where
  | text (s : String)
  | action (s : String)
deriving DecidableEq

/-- Intermediate state of the single-pass template scanner: nodes emitted so
far (reversed), characters of the pending literal (reversed), and the
characters of a pending action when the scanner is between delimiters. -/
structure ParseState where
  nodes : List TemplateNode
  textAcc : List Char
  actionAcc : Option (List Char)

def flushText (s : ParseState) : List TemplateNode :=
  match s.textAcc with
  | [] => s.nodes
  | acc => .text (String.mk acc.reverse) :: s.nodes

def parseStep (s : ParseState) (c : Char) : ParseState :=
  match s.actionAcc with
  | some acc =>
    if c = '\x7d' then
      { nodes := .action (String.mk acc.reverse) :: s.nodes
        textAcc := []
        actionAcc := none }
    else
      { s with actionAcc := some (c :: acc) }
  | none =>
    if c = '\x7b' then
      { nodes := flushText s, textAcc := [], actionAcc := some [] }
    else
      { s with textAcc := c :: s.textAcc }

/-- Parse a message template into text and action nodes. -/
def parseTemplate (format : String) : Except String (List TemplateNode) :=
  let final := format.data.foldl parseStep { nodes := [], textAcc := [], actionAcc := none }
  match final.actionAcc with
  | some _ => .error "cannot parse text template"
  | none => .ok (flushText final).reverse

/-! ## The per-invocation function table (formatter.go lines 212-235)

Every entry of the Go `template.FuncMap` built by `formatMessageRecord` is a
closure over the shared `usedArguments` map; `TemplateFunc` records which
closure it is: the automatic-argument closure made by `argumentAutomatic`,
or an `argumentValue` closure bound to a position and a value. -/

inductive TemplateFunc where
  | auto
  | value (position : Nat) (v : GoValue)

/-- Go map assignment `m[k] = v`: replace the binding of `k` when present,
otherwise add it. -/
def updateEntry (m : List (String × TemplateFunc)) (k : String) (v : TemplateFunc) :
    List (String × TemplateFunc) :=
  if m.any (fun e => e.fst = k) then
    m.map (fun e => if e.fst = k then (k, v) else e)
  else
    m ++ [(k, v)]

/-- Bindings contributed by the argument at one position: the positional
placeholder `placeholder ++ toString position`, and one binding per key when
the argument is a string-keyed map. -/
def bindArgument (placeholder : String) (m : List (String × TemplateFunc))
    (position : Nat) (argument : GoValue) : List (String × TemplateFunc) :=
  match argument with
  | .vNamed pairs =>
    pairs.foldl (fun acc kv => updateEntry acc kv.fst (.value position kv.snd))
      (updateEntry m (placeholder ++ toString position) (.value position argument))
  | _ => updateEntry m (placeholder ++ toString position) (.value position argument)

/-- The full function table: the automatic placeholder first, then the
per-position bindings in argument order (later bindings overwrite earlier
ones with the same name, as Go map assignment does). -/
def buildFuncMap (placeholder : String) (args : List GoValue) :
    List (String × TemplateFunc) :=
  args.enum.foldl (fun m pa => bindArgument placeholder m pa.fst pa.snd)
    (updateEntry [] placeholder .auto)

def lookupFunc (m : List (String × TemplateFunc)) (k : String) : Option TemplateFunc :=
  (m.find? (fun e => e.fst = k)).map (fun e => e.snd)

/-- The `object` template data: the loop keeps the last struct argument
(formatter.go lines 232-234). -/
def lastObject (args : List GoValue) : Option (List (String × GoValue)) :=
  args.foldl
    (fun acc a =>
      match a with
      | .vObj fields => some fields
      | _ => acc)
    none

/-! ## Template execution -/

/-- Execution state shared by all placeholder closures: the set of used
positions (`Formatter.usedArguments`) and the cursor of the
`argumentAutomatic` closure. -/
structure ExecState where
  used : List Nat
  cursor : Nat

/-- Go `f.usedArguments[position] = true`: the used set is a map keyed by
position, so marking is idempotent. -/
def markUsed (used : List Nat) (i : Nat) : List Nat :=
  if used.contains i then used else i :: used

/-- Output written by `text/template` for the value a placeholder closure
returned: a nil `interface\x7b\x7d` result prints the no-value token,
anything else prints its default format. -/
def templatePrint : Option GoValue → String
  | none => "<no value>"
  | some .vNil => "<no value>"
  | some v => v.sprint

/-- Model of the closure returned by `Formatter.argumentAutomatic`
(formatter.go lines 288-303): while the cursor has not passed the last
position, return the argument at the cursor, mark that position used and
advance; afterwards return nothing and leave the state alone. -/
def argumentAutomatic (args : List GoValue) (s : ExecState) :
    Option GoValue × ExecState :=
  match args.get? s.cursor with
  | some argument =>
    (some argument, { used := markUsed s.used s.cursor, cursor := s.cursor + 1 })
  | none => (none, s)

/-- Model of the closure returned by `Formatter.argumentValue`
(formatter.go lines 279-284): return the captured argument and mark the
captured position used. -/
def argumentValue (position : Nat) (argument : GoValue) (s : ExecState) :
    Option GoValue × ExecState :=
  (some argument, { s with used := markUsed s.used position })

/-- Execute one action node: field accesses read the implicit struct data,
the automatic closure consumes the next position (`argumentAutomatic`,
formatter.go lines 288-303), and a value closure returns its argument and
marks its position used (`argumentValue`, lines 279-284).  A name with no
binding is the Go parse error "function not defined". -/
def execAction (funcs : List (String × TemplateFunc))
    (object : Option (List (String × GoValue))) (args : List GoValue)
    (a : String) (s : ExecState) : Except String (String × ExecState) :=
  if a.data.head? = some '.' then
    match object with
    | some fields =>
      match fields.find? (fun f => f.fst = String.mk a.data.tail) with
      | some f => .ok (templatePrint (some f.snd), s)
      | none => .error ("cannot execute text template: field " ++ a)
    | none => .error "cannot execute text template: nil data"
  else
    match lookupFunc funcs a with
    | some .auto =>
      match argumentAutomatic args s with
      | (result, s') => .ok (templatePrint result, s')
    | some (.value position v) =>
      match argumentValue position v s with
      | (result, s') => .ok (templatePrint result, s')
    | none => .error ("cannot parse text template: function " ++ a ++ " not defined")

/-- Execute a node list left to right, threading the closure state. -/
def execNodes (funcs : List (String × TemplateFunc))
    (object : Option (List (String × GoValue))) (args : List GoValue) :
    List TemplateNode → ExecState → Except String (String × ExecState)
  | [], s => .ok ("", s)
  | .text t :: rest, s =>
    match execNodes funcs object args rest s with
    | .error e => .error e
    | .ok r => .ok (t ++ r.fst, r.snd)
  | .action a :: rest, s =>
    match execAction funcs object args a s with
    | .error e => .error e
    | .ok r1 =>
      match execNodes funcs object args rest r1.snd with
      | .error e => .error e
      | .ok r2 => .ok (r1.fst ++ r2.fst, r2.snd)

/-- Parse and execute the record's message template against the placeholder
function table, returning the rendered text and the set of used argument
positions.  This is formatter.go lines 212-244 (the record's built-in
field functions from `getRecordFuncs` involve process state and are outside
the model; the placeholder bindings shadow none of them in the claims). -/
def resolveMessage (placeholder : String) (record : Record) :
    Except String (String × List Nat) :=
  match parseTemplate record.Message with
  | .error e => .error e
  | .ok nodes =>
    match execNodes (buildFuncMap placeholder record.Arguments)
        (lastObject record.Arguments) record.Arguments nodes
        { used := [], cursor := 0 } with
    | .error e => .error e
    | .ok r => .ok (r.fst, r.snd.used)

/-! ## Auto-append of unused arguments (formatter.go lines 246-276) -/

/-- Model of `Formatter.isArgumentUsed`: a string-keyed map or a struct
counts as used unconditionally; otherwise the used set decides. -/
def isArgumentUsed (used : List Nat) (position : Nat) (argument : GoValue) : Bool :=
  match argument with
  | .vNamed _ => true
  | .vObj _ => true
  | _ => used.contains position

/-- The append loop of `formatMessageRecord`: scan positions in order and
append the `fmt.Sprint` image of every unused argument, preceded by a
space whenever the message accumulated so far is non-empty. -/
def appendUnused (args : List GoValue) (used : List Nat) (message : String) : String :=
  args.enum.foldl
    (fun m pa =>
      if isArgumentUsed used pa.fst pa.snd then m
      else (if m ≠ "" then m ++ " " else m) ++ pa.snd.sprint)
    message

/-- Model of `Formatter.formatMessageRecord`: return the message verbatim
when there are no arguments, otherwise resolve the template and append the
unused arguments (skipping the scan when every position is marked). -/
def formatMessageRecord (placeholder : String) (record : Record) :
    Except String String :=
  if record.Arguments.length = 0 then
    .ok record.Message
  else
    match resolveMessage placeholder record with
    | .error e => .error e
    | .ok r =>
      if r.snd.length ≥ record.Arguments.length then
        .ok r.fst
      else
        .ok (appendUnused record.Arguments r.snd r.fst)

/-- Model of `Formatter.FormatMessage`: `formatMessageRecord` with the
error wrapped. -/
def FormatMessage (f : FormatterState) (record : Record) : Except String String :=
  match formatMessageRecord f.placeholder record with
  | .ok message => .ok message
  | .error e => .error ("cannot format message: " ++ e)

/-! ## Worker dispatch (worker.go) -/

/-- Per-handler state relevant to dispatch: the inclusive level range and
the enable flag (`isDisabled` of the Stream handler, toggled by
`Enable` and `Disable`). -/
structure HandlerState where
  minimumLevel : Int
  maximumLevel : Int
  isDisabled : Bool

/-- Model of `Handler.GetLevelRange`. -/
def getLevelRange (h : HandlerState) : Int × Int :=
  (h.minimumLevel, h.maximumLevel)

/-- The dispatch test of `Worker.emit` (worker.go lines 150-160): the
handler's `Emit` is invoked exactly when the record's level value lies in
the closed interval returned by `GetLevelRange`. -/
def workerShouldEmit (h : HandlerState) (record : Record) : Bool :=
  let range := getLevelRange h
  decide (record.Level.Value ≥ range.fst) && decide (record.Level.Value ≤ range.snd)

/-- The handlers whose `Emit` the worker invokes for one dequeued record,
in handler-set order. -/
def emittedHandlers (handlers : List HandlerState) (record : Record) :
    List HandlerState :=
  handlers.filter (fun h => workerShouldEmit h record)

/-! ## Worker flush (worker.go lines 79-112)

`Flush` hands a wait group to the flush channel and blocks on it; the run
loop answers by reading `len(w.records)` once, dequeuing exactly that many
records (emitting the non-nil ones), and only then signalling the wait
group.  The records channel is a FIFO, so records enqueued while the drain
runs sit behind the snapshot and are untouched by it; `flushDrain` models
the drain with the mid-drain arrivals made explicit. -/

structure FlushOutcome where
  emitted : List Record
  remaining : List (Option Record)
  acknowledged : Bool

/-- One pass of the flush case of `Worker.run`: `queued` is the channel
content when the flush request is received (`records := len(w.records)` is
captured from it, once), and `arrivals` are the records producers append
to the channel while the drain loop runs. -/
def flushDrain (queued arrivals : List (Option Record)) : FlushOutcome :=
  let records := queued.length
  let channel := queued ++ arrivals
  { emitted := (channel.take records).filterMap id
    remaining := channel.drop records
    acknowledged := true }

/-! ## Logger lifecycle events (logger.go, glogger.go) -/

/-- Externally visible effects of a logger call, in program order. -/
inductive LoggerEvent where
  | logged (level : Int) (levelName : String) (message : String)
  | flushedWorker
  | closedHandler (name : String)
  | panicked (errMessage : String)
deriving DecidableEq

/-- The handler-set and configuration of a logger as far as the lifecycle
claims need it. -/
structure LoggerConf where
  name : String
  handlerNames : List String

/-- Model of `Logger.Close` (logger.go lines 491-509): flush the worker,
then close every handler of the receiver. -/
def loggerClose (l : LoggerConf) : List LoggerEvent :=
  .flushedWorker :: l.handlerNames.map .closedHandler

/-- Model of the package-level `Close` (glogger.go lines 276-282): it
closes the process-wide default logger `Get()`. -/
def globalClose (g : LoggerConf) : List LoggerEvent :=
  loggerClose g

/-- Model of `Logger.Panic` (logger.go lines 469-473) invoked on receiver
`l` while the process-wide default logger is `g`: log at `PanicLevel`,
call the package-level `Close()` (which operates on `g`, not on `l`),
then panic with `NewRuntimeError("Panic error", nil)`. -/
def loggerPanicTrace (l g : LoggerConf) (message : String) : List LoggerEvent :=
  let _ := l
  .logged PanicLevel PanicName message :: globalClose g ++ [.panicked "Panic error"]

/-! ## Factory registries and handler lookup (handler.go, id_generator.go,
logger.go lines 308-319) -/

/-- Model of `CreateHandler`: look the name up in the constructor registry;
a registered name yields a handler and no error, an unregistered one
yields no handler and a runtime error. -/
def createHandler (registry : List (String × α)) (name : String) :
    Option α × Option String :=
  match registry.find? (fun e => e.fst = name) with
  | some e => (some e.snd, none)
  | none => (none, some ("cannot create log handler " ++ name))

/-- Model of `CreateIDGenerator`, identical shape over its own registry. -/
def createIDGenerator (registry : List (String × α)) (name : String) :
    Option α × Option String :=
  match registry.find? (fun e => e.fst = name) with
  | some e => (some e.snd, none)
  | none => (none, some ("cannot create ID generator " ++ name))

/-- Model of `Logger.GetHandler`: look the name up in the logger's handler
map (the Go error message concatenates without a space). -/
def getHandler (handlers : List (String × α)) (name : String) :
    Option α × Option String :=
  match handlers.find? (fun e => e.fst = name) with
  | some e => (some e.snd, none)
  | none => (none, some ("cannot get handler" ++ name))

/-! ## Record wire format (record.go `ToJSON` / `FromJSON`)

`json.Marshal` of a `Record` serializes the tagged exported fields; `Time`
and `File.Path` carry the tag "-" and are skipped.  The JSON tree is
modelled explicitly. -/

inductive JValue where
  | str (s : String)
  | num (n : Int)
  | null
  | obj (fields : List (String × JValue))
  | arr (elems : List JValue)

mutual

/-- `json.Marshal` of one argument value.  Integers and strings map to the
matching JSON scalars, `nil` to null, string-keyed maps and structs to
objects, slices to arrays; values outside the modelled fragment are carried
as their string image. -/
def goValueToJson : GoValue → JValue
  | .vInt n => .num n
  | .vStr s => .str s
  | .vNil => .null
  | .vNamed ps => .obj (pairsToJson ps)
  | .vObj fs => .obj (pairsToJson fs)
  | .vList es => .arr (elemsToJson es)
  | .vOther image => .str image

def pairsToJson : List (String × GoValue) → List (String × JValue)
  | [] => []
  | kv :: rest => (kv.fst, goValueToJson kv.snd) :: pairsToJson rest

def elemsToJson : List GoValue → List JValue
  | [] => []
  | v :: rest => goValueToJson v :: elemsToJson rest

end

mutual

/-- `json.Unmarshal` of an `interface\x7b\x7d` value: strings stay strings,
numbers become numbers (Go decodes into `float64`; the wire value is
preserved and the model keeps it as the integer), null becomes nil, objects
become string-keyed maps, arrays become slices. -/
def jsonToGoValue : JValue → GoValue
  | .str s => .vStr s
  | .num n => .vInt n
  | .null => .vNil
  | .obj fs => .vNamed (jsonPairsToGo fs)
  | .arr es => .vList (jsonElemsToGo es)

def jsonPairsToGo : List (String × JValue) → List (String × GoValue)
  | [] => []
  | kv :: rest => (kv.fst, jsonToGoValue kv.snd) :: jsonPairsToGo rest

def jsonElemsToGo : List JValue → List GoValue
  | [] => []
  | v :: rest => jsonToGoValue v :: jsonElemsToGo rest

end

/-- Model of `Record.ToJSON`: the serialized object carries exactly the
tagged fields in struct order; `Time` and `File.Path` are skipped. -/
def recordToJSON (r : Record) : JValue :=
  .obj
    [ ("id", goValueToJson r.ID)
    , ("type", .str r.«Type»)
    , ("name", .str r.Name)
    , ("level", .obj [("value", .num r.Level.Value), ("name", .str r.Level.Name)])
    , ("address", .str r.Address)
    , ("hostname", .str r.Hostname)
    , ("message", .str r.Message)
    , ("file", .obj
        [ ("function", .str r.File.Function)
        , ("name", .str r.File.Name)
        , ("line", .num r.File.Line) ])
    , ("arguments", .arr (elemsToJson r.Arguments))
    , ("timestamp", .obj [("created", .str r.Timestamp.Created)]) ]

def jlookup (fields : List (String × JValue)) (k : String) : Option JValue :=
  (fields.find? (fun e => e.fst = k)).map (fun e => e.snd)

def asStr : Option JValue → Option String
  | some (.str s) => some s
  | _ => none

def asNum : Option JValue → Option Int
  | some (.num n) => some n
  | _ => none

/-- Model of `Record.FromJSON` applied to a wire object of the shape
`ToJSON` produces: every serialized field is assigned from the JSON data,
while `Time` and `File.Path` (tag "-") keep the values the receiver
already had. -/
def recordFromJSON (j : JValue) (r0 : Record) : Option Record :=
  match j with
  | .obj fields => do
    let idJ ← jlookup fields "id"
    let typeS ← asStr (jlookup fields "type")
    let nameS ← asStr (jlookup fields "name")
    let levelJ ← jlookup fields "level"
    let levelObj ← match levelJ with | .obj fs => some fs | _ => none
    let levelValue ← asNum (jlookup levelObj "value")
    let levelName ← asStr (jlookup levelObj "name")
    let addressS ← asStr (jlookup fields "address")
    let hostnameS ← asStr (jlookup fields "hostname")
    let messageS ← asStr (jlookup fields "message")
    let fileJ ← jlookup fields "file"
    let fileObj ← match fileJ with | .obj fs => some fs | _ => none
    let fileFunction ← asStr (jlookup fileObj "function")
    let fileName ← asStr (jlookup fileObj "name")
    let fileLine ← asNum (jlookup fileObj "line")
    let argsJ ← jlookup fields "arguments"
    let argsList ← match argsJ with | .arr es => some es | _ => none
    let timestampJ ← jlookup fields "timestamp"
    let timestampObj ← match timestampJ with | .obj fs => some fs | _ => none
    let created ← asStr (jlookup timestampObj "created")
    some
      { ID := jsonToGoValue idJ
        «Type» := typeS
        Name := nameS
        Time := r0.Time
        Level := { Value := levelValue, Name := levelName }
        Address := addressS
        Hostname := hostnameS
        Message := messageS
        File :=
          { Function := fileFunction
            Name := fileName
            Path := r0.File.Path
            Line := fileLine }
        Arguments := jsonElemsToGo argsList
        Timestamp := { Created := created } }
  | _ => none

/-- Argument values on which the modelled unmarshal inverts the modelled
marshal exactly: scalars, and maps or slices of scalars (structs decode to
maps and unclassified values to their string image, so they are excluded). -/
def GoValue.atomicJson : GoValue → Bool
  | .vInt _ => true
  | .vStr _ => true
  | .vNil => true
  | _ => false

def jsonSafe : GoValue → Bool
  | .vInt _ => true
  | .vStr _ => true
  | .vNil => true
  | .vNamed ps => ps.all (fun kv => kv.snd.atomicJson)
  | .vList es => es.all GoValue.atomicJson
  | .vObj _ => false
  | .vOther _ => false

/-- Names of the keys of a JSON object, in serialization order. -/
def topFields : JValue → List String
  | .obj fields => fields.map (fun e => e.fst)
  | _ => []

/-- Names of the keys of the sub-object stored under `k`. -/
def subFields (j : JValue) (k : String) : List String :=
  match j with
  | .obj fields =>
    match jlookup fields k with
    | some v => topFields v
    | none => []
  | _ => []

/-! ## Spec-side descriptions used by the auto-append claim -/

/-- The `fmt.Sprint` images of the argument positions that the append loop
of `formatMessageRecord` treats as unused, in original position order. -/
def unusedReprs (args : List GoValue) (used : List Nat) : List String :=
  (args.enum.filter (fun pa => ! isArgumentUsed used pa.fst pa.snd)).map
    (fun pa => pa.snd.sprint)

/-- Modelled from the spec: the appended images joined by single spaces. -/
def spaceSeparated : List String → String
  | [] => ""
  | [r] => r
  | r :: rest => r ++ " " ++ spaceSeparated rest

/-- Modelled from the spec (as amended): the rendered message followed by
the space-separated unused images, with one leading space when the
rendered message is non-empty and no leading space when it is empty. -/
def specAutoAppend (message : String) (reprs : List String) : String :=
  if reprs = [] then message
  else (if message = "" then "" else message ++ " ") ++ spaceSeparated reprs

/-- The append loop restated as a fold over the image list. -/
def foldAppend (m : String) (reprs : List String) : String :=
  reprs.foldl (fun acc r => (if acc ≠ "" then acc ++ " " else acc) ++ r) m

/-! ## Execution-state invariants -/

/-- Every `value` closure in a function table is bound to a position below
the argument count. -/
def FuncsBound (n : Nat) (m : List (String × TemplateFunc)) : Prop :=
  ∀ e ∈ m, ∀ position v, e.snd = TemplateFunc.value position v → position < n

lemma str_length_eq_zero (s : String) : s.length = 0 ↔ s = "" := by
  constructor
  · intro h
    cases s with
    | mk data =>
      cases data with
      | nil => rfl
      | cons c cs => simp [String.length] at h
  · intro h
    subst h
    rfl

lemma str_append_ne_empty (a b : String) (h : a ≠ "") : a ++ b ≠ "" := by
  intro hab
  apply h
  have hlen : (a ++ b).length = 0 := (str_length_eq_zero _).mpr hab
  rw [String.length_append] at hlen
  exact (str_length_eq_zero a).mp (by omega)

lemma markUsed_bound (n i : Nat) (used : List Nat) (hi : i < n)
    (hU : used.Nodup) (hB : ∀ j ∈ used, j < n) :
    (markUsed used i).Nodup ∧ ∀ j ∈ markUsed used i, j < n := by
  unfold markUsed
  cases hc : used.contains i with
  | true => simpa using ⟨hU, hB⟩
  | false =>
    have hnot : i ∉ used := by
      intro hmem
      have hte : used.contains i = true := List.elem_iff.mpr hmem
      rw [hc] at hte
      exact Bool.false_ne_true hte
    simp only [hc, Bool.false_eq_true, if_false]
    refine ⟨List.nodup_cons.mpr ⟨hnot, hU⟩, ?_⟩
    intro j hj
    rcases List.mem_cons.mp hj with rfl | hj
    · exact hi
    · exact hB j hj

lemma updateEntry_bound (n : Nat) (m : List (String × TemplateFunc)) (k : String)
    (f : TemplateFunc) (hm : FuncsBound n m)
    (hf : ∀ position v, f = TemplateFunc.value position v → position < n) :
    FuncsBound n (updateEntry m k f) := by
  intro e he position v hev
  unfold updateEntry at he
  split at he
  · obtain ⟨e', he', heq⟩ := List.mem_map.mp he
    by_cases hk : e'.fst = k
    · rw [if_pos hk] at heq
      subst heq
      exact hf position v hev
    · rw [if_neg hk] at heq
      subst heq
      exact hm e' he' position v hev
  · rcases List.mem_append.mp he with h1 | h2
    · exact hm e h1 position v hev
    · have : e = (k, f) := by simpa using h2
      subst this
      exact hf position v hev

lemma foldl_updateEntry_bound (n pos : Nat) (hpos : pos < n) :
    ∀ (pairs : List (String × GoValue)) (m : List (String × TemplateFunc)),
      FuncsBound n m →
      FuncsBound n
        (pairs.foldl (fun acc kv => updateEntry acc kv.fst (.value pos kv.snd)) m) := by
  intro pairs
  induction pairs with
  | nil => intro m hm; exact hm
  | cons kv rest ih =>
    intro m hm
    apply ih
    apply updateEntry_bound n m kv.fst _ hm
    intro position v hv
    injection hv with h1 h2
    omega

lemma bindArgument_bound (n : Nat) (p : String) (m : List (String × TemplateFunc))
    (i : Nat) (arg : GoValue) (hi : i < n) (hm : FuncsBound n m) :
    FuncsBound n (bindArgument p m i arg) := by
  have h1 : ∀ (a : GoValue),
      FuncsBound n (updateEntry m (p ++ toString i) (.value i a)) := by
    intro a
    apply updateEntry_bound n m _ _ hm
    intro position v hv
    injection hv with hp hval
    omega
  unfold bindArgument
  cases arg
  case vNamed pairs => exact foldl_updateEntry_bound n i hi pairs _ (h1 _)
  all_goals exact h1 _

lemma foldl_bindArgument_bound (n : Nat) (p : String) :
    ∀ (l : List (Nat × GoValue)) (m : List (String × TemplateFunc)),
      (∀ pa ∈ l, pa.fst < n) → FuncsBound n m →
      FuncsBound n (l.foldl (fun acc pa => bindArgument p acc pa.fst pa.snd) m) := by
  intro l
  induction l with
  | nil => intro m _ hm; exact hm
  | cons pa rest ih =>
    intro m hl hm
    apply ih _ (fun q hq => hl q (List.mem_cons_of_mem _ hq))
    exact bindArgument_bound n p m pa.fst pa.snd (hl pa (List.mem_cons_self _ _)) hm

lemma buildFuncMap_bound (p : String) (args : List GoValue) :
    FuncsBound args.length (buildFuncMap p args) := by
  unfold buildFuncMap
  apply foldl_bindArgument_bound
  · intro pa hpa
    exact List.fst_lt_of_mem_enum hpa
  · apply updateEntry_bound _ [] _ _
    · intro e he
      cases he
    · intro position v hv
      cases hv

lemma lookupFunc_bound (n : Nat) (m : List (String × TemplateFunc))
    (hm : FuncsBound n m) (k : String) (position : Nat) (v : GoValue)
    (h : lookupFunc m k = some (.value position v)) : position < n := by
  unfold lookupFunc at h
  obtain ⟨e, he, hsnd⟩ := Option.map_eq_some'.mp h
  exact hm e (List.mem_of_find?_eq_some he) position v hsnd

lemma execAction_bound (funcs : List (String × TemplateFunc))
    (object : Option (List (String × GoValue))) (args : List GoValue)
    (a : String) (s : ExecState) (out : String) (s' : ExecState)
    (hf : FuncsBound args.length funcs)
    (hU : s.used.Nodup) (hB : ∀ i ∈ s.used, i < args.length)
    (h : execAction funcs object args a s = .ok (out, s')) :
    s'.used.Nodup ∧ ∀ i ∈ s'.used, i < args.length := by
  unfold execAction at h
  by_cases hdot : a.data.head? = some '.'
  · rw [if_pos hdot] at h
    cases object with
    | none => simp at h
    | some fields =>
      cases hfind : fields.find? (fun f => f.fst = String.mk a.data.tail) with
      | none => simp [hfind] at h
      | some f =>
        simp only [hfind, Except.ok.injEq, Prod.mk.injEq] at h
        obtain ⟨-, rfl⟩ := h
        exact ⟨hU, hB⟩
  · rw [if_neg hdot] at h
    cases hlk : lookupFunc funcs a with
    | none => simp [hlk] at h
    | some tf =>
      cases tf with
      | auto =>
        cases hget : args.get? s.cursor with
        | some arg =>
          obtain ⟨hlt, -⟩ := List.get?_eq_some.mp hget
          simp only [hlk, argumentAutomatic, hget, Except.ok.injEq, Prod.mk.injEq] at h
          obtain ⟨-, rfl⟩ := h
          exact markUsed_bound args.length s.cursor s.used hlt hU hB
        | none =>
          simp only [hlk, argumentAutomatic, hget, Except.ok.injEq, Prod.mk.injEq] at h
          obtain ⟨-, rfl⟩ := h
          exact ⟨hU, hB⟩
      | value position v =>
        have hpos : position < args.length := lookupFunc_bound _ _ hf _ _ _ hlk
        simp only [hlk, argumentValue, Except.ok.injEq, Prod.mk.injEq] at h
        obtain ⟨-, rfl⟩ := h
        exact markUsed_bound args.length position s.used hpos hU hB

lemma execNodes_bound (funcs : List (String × TemplateFunc))
    (object : Option (List (String × GoValue))) (args : List GoValue)
    (hf : FuncsBound args.length funcs) :
    ∀ (nodes : List TemplateNode) (s : ExecState) (out : String) (s' : ExecState),
      s.used.Nodup → (∀ i ∈ s.used, i < args.length) →
      execNodes funcs object args nodes s = .ok (out, s') →
      s'.used.Nodup ∧ ∀ i ∈ s'.used, i < args.length := by
  intro nodes
  induction nodes with
  | nil =>
    intro s out s' hU hB h
    simp only [execNodes, Except.ok.injEq, Prod.mk.injEq] at h
    obtain ⟨-, rfl⟩ := h
    exact ⟨hU, hB⟩
  | cons node rest ih =>
    intro s out s' hU hB h
    cases node with
    | text t =>
      rw [execNodes] at h
      cases hrec : execNodes funcs object args rest s with
      | error e => simp [hrec] at h
      | ok r =>
        simp only [hrec, Except.ok.injEq, Prod.mk.injEq] at h
        obtain ⟨-, rfl⟩ := h
        exact ih s r.fst r.snd hU hB hrec
    | action a =>
      rw [execNodes] at h
      cases hact : execAction funcs object args a s with
      | error e => simp [hact] at h
      | ok r1 =>
        have hb1 := execAction_bound funcs object args a s r1.fst r1.snd hf hU hB
          (by rw [hact])
        cases hrec : execNodes funcs object args rest r1.snd with
        | error e => simp [hact, hrec] at h
        | ok r2 =>
          simp only [hact, hrec, Except.ok.injEq, Prod.mk.injEq] at h
          obtain ⟨-, rfl⟩ := h
          exact ih r1.snd r2.fst r2.snd hb1.1 hb1.2 hrec

lemma resolveMessage_bound (p : String) (r : Record) (m : String) (used : List Nat)
    (h : resolveMessage p r = .ok (m, used)) :
    used.Nodup ∧ ∀ i ∈ used, i < r.Arguments.length := by
  unfold resolveMessage at h
  cases hparse : parseTemplate r.Message with
  | error e => simp [hparse] at h
  | ok nodes =>
    cases hexec : execNodes (buildFuncMap p r.Arguments) (lastObject r.Arguments)
        r.Arguments nodes { used := [], cursor := 0 } with
    | error e => simp [hparse, hexec] at h
    | ok res =>
      simp only [hparse, hexec, Except.ok.injEq, Prod.mk.injEq] at h
      obtain ⟨-, rfl⟩ := h
      exact execNodes_bound _ _ _ (buildFuncMap_bound p r.Arguments) nodes
        { used := [], cursor := 0 } res.fst res.snd List.nodup_nil (by intro i hi; cases hi)
        hexec

lemma all_positions_used (n : Nat) (used : List Nat) (hU : used.Nodup)
    (hB : ∀ i ∈ used, i < n) (hlen : n ≤ used.length) :
    ∀ j, j < n → j ∈ used := by
  intro j hj
  have hsub : used.toFinset ⊆ Finset.range n := by
    intro x hx
    rw [List.mem_toFinset] at hx
    exact Finset.mem_range.mpr (hB x hx)
  have hcard : (Finset.range n).card ≤ used.toFinset.card := by
    rw [List.toFinset_card_of_nodup hU, Finset.card_range]
    exact hlen
  have heq : used.toFinset = Finset.range n :=
    Finset.eq_of_subset_of_card_le hsub hcard
  have : j ∈ used.toFinset := heq ▸ Finset.mem_range.mpr hj
  exact List.mem_toFinset.mp this

lemma unusedReprs_nil_of_all_used (args : List GoValue) (used : List Nat)
    (h : ∀ j, j < args.length → j ∈ used) :
    unusedReprs args used = [] := by
  unfold unusedReprs
  rw [List.map_eq_nil_iff, List.filter_eq_nil_iff]
  intro pa hpa
  have hlt := List.fst_lt_of_mem_enum hpa
  have hmem := h pa.fst hlt
  cases harg : pa.snd <;>
    simp [isArgumentUsed, harg, List.elem_iff, hmem]

lemma appendUnused_eq_foldAppend (args : List GoValue) (used : List Nat) (m : String) :
    appendUnused args used m = foldAppend m (unusedReprs args used) := by
  unfold appendUnused foldAppend unusedReprs
  generalize args.enum = l
  induction l generalizing m with
  | nil => rfl
  | cons pa rest ih =>
    simp only [ne_eq, ite_not] at ih
    cases h : isArgumentUsed used pa.fst pa.snd <;>
      simp [List.filter_cons, h] <;> exact ih _

lemma foldAppend_nonempty (reprs : List String) :
    ∀ (m : String), m ≠ "" →
      foldAppend m reprs = if reprs = [] then m else m ++ " " ++ spaceSeparated reprs := by
  induction reprs with
  | nil => intro m hm; simp [foldAppend]
  | cons r rs ih =>
    intro m hm
    have hstep : foldAppend m (r :: rs) = foldAppend (m ++ " " ++ r) rs := by
      simp [foldAppend, hm]
    rw [hstep, ih (m ++ " " ++ r) (str_append_ne_empty _ _ (str_append_ne_empty _ _ hm))]
    cases rs with
    | nil => simp [spaceSeparated]
    | cons r' rs' => simp [spaceSeparated, String.append_assoc]

lemma foldAppend_empty_message (reprs : List String)
    (hne : ∀ r ∈ reprs, r ≠ "") :
    foldAppend "" reprs = spaceSeparated reprs := by
  cases reprs with
  | nil => rfl
  | cons r rs =>
    have h1 : foldAppend "" (r :: rs) = foldAppend r rs := by
      simp [foldAppend]
    rw [h1, foldAppend_nonempty rs r (hne r (List.mem_cons_self _ _))]
    cases rs with
    | nil => simp [spaceSeparated]
    | cons r' rs' => simp [spaceSeparated]

lemma appendUnused_eq_spec (args : List GoValue) (used : List Nat) (m : String)
    (hne : m = "" → ∀ r ∈ unusedReprs args used, r ≠ "") :
    appendUnused args used m = specAutoAppend m (unusedReprs args used) := by
  rw [appendUnused_eq_foldAppend]
  by_cases hm : m = ""
  · subst hm
    rw [foldAppend_empty_message _ (hne rfl)]
    unfold specAutoAppend
    cases h : unusedReprs args used with
    | nil => simp [spaceSeparated]
    | cons r rs => simp
  · rw [foldAppend_nonempty _ m hm]
    unfold specAutoAppend
    cases h : unusedReprs args used with
    | nil => simp
    | cons r rs => simp [hm]

/-! # Theorems -/

/-- C3: for every record whose argument list is empty, `FormatMessage`
returns the record's message string unchanged and without error, even when
the message contains brace-shaped substrings or syntactically invalid
template text. -/
theorem formatMessage_no_arguments_passthrough (p : String) (r : Record)
    (h : r.Arguments = []) : formatMessageRecord p r = .ok r.Message := by
  simp [formatMessageRecord, h]

/-- Witness for C3 at a message that is an unterminated (invalid) template
action: it passes through verbatim. -/
theorem formatMessage_no_arguments_passthrough_witness :
    formatMessageRecord "p" { emptyRecord with Message := "\x7bx" } = .ok "\x7bx" :=
  formatMessage_no_arguments_passthrough "p" { emptyRecord with Message := "\x7bx" } rfl

/-- C10: `GetFormat` round-trips `SetFormat`, but `GetDateFormat` reads the
field `format` instead of `dateFormat` (formatter.go line 148), so after
`SetDateFormat` it still returns the top-level format, and on a fresh
formatter it returns `DefaultFormat`, not `DefaultDateFormat`. -/
theorem formatter_getDateFormat_reads_format :
    getDateFormat (setDateFormat newFormatter "\x7bday\x7d") = DefaultFormat ∧
    DefaultFormat ≠ "\x7bday\x7d" ∧
    getFormat newFormatter = DefaultFormat ∧
    getDateFormat newFormatter ≠ DefaultDateFormat ∧
    (∀ (f : FormatterState) (t : String), getFormat (setFormat f t) = t) ∧
    (∀ (f : FormatterState) (d : String), (setDateFormat f d).dateFormat = d) := by
  refine ⟨rfl, by decide, rfl, by decide, fun f t => rfl, fun f d => rfl⟩

/-- C1: the dispatch test of `Worker.emit` depends only on the handler's
inclusive level range; the enable flag toggled by `Enable`/`Disable` is
never consulted, so a disabled handler whose range contains the record's
level still receives `Emit`.  Boundary values (level equal to the minimum
or the maximum) are received; values below the minimum are not. -/
theorem worker_emit_ignores_enabled_flag :
    (∀ (h : HandlerState) (r : Record) (b : Bool),
      workerShouldEmit { h with isDisabled := b } r = workerShouldEmit h r) ∧
    workerShouldEmit
      { minimumLevel := WarningLevel, maximumLevel := PanicLevel, isDisabled := true }
      { emptyRecord with Level := { Value := WarningLevel, Name := "warning" } } = true ∧
    workerShouldEmit
      { minimumLevel := WarningLevel, maximumLevel := PanicLevel, isDisabled := true }
      { emptyRecord with Level := { Value := PanicLevel, Name := "panic" } } = true ∧
    workerShouldEmit
      { minimumLevel := WarningLevel, maximumLevel := PanicLevel, isDisabled := false }
      { emptyRecord with Level := { Value := NoticeLevel, Name := "notice" } } = false := by
  exact ⟨fun h r b => rfl, by decide, by decide, by decide⟩

/-- C6: the flush case of `Worker.run` drains exactly the queue length
captured when the flush request is received, so the records dispatched
before the wait group is signalled are exactly those queued at
flush-request time (in order, nil entries skipped); records that arrive
while the drain runs stay queued, and the acknowledgement follows the
drain. -/
theorem worker_flush_drains_snapshot (queued arrivals : List (Option Record)) :
    (flushDrain queued arrivals).emitted = queued.filterMap id ∧
    (flushDrain queued arrivals).remaining = arrivals ∧
    (flushDrain queued arrivals).acknowledged = true := by
  refine ⟨?_, ?_, rfl⟩
  · simp only [flushDrain, List.take_left]
  · simp only [flushDrain, List.drop_left]

/-- C7 counterexample: `Logger.Panic` on a logger whose handler set is
\x7b"file"\x7d while the process default logger owns
\x7b"stdout", "stderr"\x7d closes the default logger's handlers, not the
receiver's, and the raised error carries the fixed text "Panic error"
rather than the logged message "boom". -/
theorem logger_panic_closes_global_counterexample :
    LoggerEvent.closedHandler "file" ∉
      loggerPanicTrace { name := "custom", handlerNames := ["file"] }
        { name := "", handlerNames := ["stdout", "stderr"] } "boom" ∧
    LoggerEvent.panicked "boom" ∉
      loggerPanicTrace { name := "custom", handlerNames := ["file"] }
        { name := "", handlerNames := ["stdout", "stderr"] } "boom" ∧
    LoggerEvent.closedHandler "stdout" ∈
      loggerPanicTrace { name := "custom", handlerNames := ["file"] }
        { name := "", handlerNames := ["stdout", "stderr"] } "boom" ∧
    LoggerEvent.panicked "Panic error" ∈
      loggerPanicTrace { name := "custom", handlerNames := ["file"] }
        { name := "", handlerNames := ["stdout", "stderr"] } "boom" := by
  decide

/-- C7 amended: `Logger.Panic` logs the message at `PanicLevel` (the
largest level value), then flushes the worker and closes every handler of
the process-wide default logger, and finally panics with a runtime error
whose message is the constant "Panic error". -/
theorem logger_panic_trace_amended (l g : LoggerConf) (message : String) :
    loggerPanicTrace l g message =
      LoggerEvent.logged PanicLevel PanicName message :: LoggerEvent.flushedWorker ::
        (g.handlerNames.map LoggerEvent.closedHandler ++
          [LoggerEvent.panicked "Panic error"]) ∧
    ([TraceLevel, DebugLevel, InfoLevel, NoticeLevel, WarningLevel, ErrorLevel,
      CriticalLevel, AlertLevel, FatalLevel, PanicLevel].all
        (fun v => decide (v ≤ PanicLevel))) = true := by
  exact ⟨rfl, by decide⟩

/-- C8: looking up or constructing by an unregistered name yields an
explicit error result: `CreateHandler`, `CreateIDGenerator` and
`Logger.GetHandler` each return no value together with a runtime error
whenever the name is not a key of the respective map. -/
theorem unknown_name_lookup_errors {α : Type} (registry handlers : List (String × α))
    (name : String)
    (h1 : registry.find? (fun e => e.fst = name) = none)
    (h2 : handlers.find? (fun e => e.fst = name) = none) :
    createHandler registry name = (none, some ("cannot create log handler " ++ name)) ∧
    createIDGenerator registry name = (none, some ("cannot create ID generator " ++ name)) ∧
    getHandler handlers name = (none, some ("cannot get handler" ++ name)) := by
  refine ⟨?_, ?_, ?_⟩
  · simp [createHandler, h1]
  · simp [createIDGenerator, h1]
  · simp [getHandler, h2]

/-- Witness for C8 on concrete registries without the name "missing". -/
theorem unknown_name_lookup_errors_witness :
    createHandler [("stream", 0)] "missing" =
      (none, some "cannot create log handler missing") ∧
    createIDGenerator [("stream", 0)] "missing" =
      (none, some "cannot create ID generator missing") ∧
    getHandler [("stdout", 0), ("stderr", 1)] "missing" =
      (none, some "cannot get handlermissing") := by
  have h := unknown_name_lookup_errors [("stream", 0)] [("stdout", 0), ("stderr", 1)]
    "missing" (by decide) (by decide)
  exact h

/-- C4: the automatic placeholder's closure returns the argument at its
cursor (nothing once the cursor passes the last position), marks exactly
that position used when it yields an argument, and drives the rendering
of repeated automatic placeholders in positional order. -/
theorem automatic_placeholder_cursor :
    (∀ (args : List GoValue) (s : ExecState),
      (argumentAutomatic args s).fst = args.get? s.cursor) ∧
    (∀ (args : List GoValue) (s : ExecState),
      (argumentAutomatic args s).snd.used =
        if s.cursor < args.length then markUsed s.used s.cursor else s.used) ∧
    formatMessageRecord "p"
      { emptyRecord with
        Message := "\x7bp\x7d \x7bp\x7d \x7bp\x7d"
        Arguments := [.vInt 1, .vInt 2, .vInt 3] } = .ok "1 2 3" ∧
    formatMessageRecord "p"
      { emptyRecord with
        Message := "\x7bp\x7d \x7bp\x7d"
        Arguments := [.vInt 1] } = .ok "1 <no value>" := by
  refine ⟨?_, ?_, rfl, rfl⟩
  · intro args s
    unfold argumentAutomatic
    cases h : args.get? s.cursor with
    | some a => simp
    | none => simp
  · intro args s
    unfold argumentAutomatic
    cases h : args.get? s.cursor with
    | some a =>
      obtain ⟨hlt, -⟩ := List.get?_eq_some.mp h
      simp [hlt]
    | none =>
      have hge : args.length ≤ s.cursor := List.get?_eq_none.mp h
      simp [Nat.not_lt.mpr hge]

/-- C2 counterexample: when the resolved template output is empty (here the
message template is empty) the first appended value receives no leading
space, so the claim's "single leading space before the first appended
value" fails: the output is "4", not " 4". -/
theorem formatMessage_no_leading_space_counterexample :
    formatMessageRecord "p" { emptyRecord with Message := "", Arguments := [.vInt 4] } =
      .ok "4" ∧
    (Except.ok "4" : Except String String) ≠ .ok " 4" := by
  refine ⟨rfl, ?_⟩
  intro h
  injection h with h'
  exact absurd h' (by decide)

/-- C2 amended: after template resolution, `formatMessageRecord` appends the
default string representation of every argument position that is neither
marked used (explicit placeholder or automatic cursor) nor occupied by a
named-argument map or struct, space-separated in original position order,
with a single leading space before the first appended value whenever the
resolved output is non-empty (and no leading space when it is empty, the
case requiring the appended images themselves to be non-empty here). -/
theorem formatMessage_appends_unused (p : String) (r : Record)
    (m : String) (used : List Nat)
    (hargs : r.Arguments ≠ [])
    (hres : resolveMessage p r = .ok (m, used))
    (hne : m = "" → ∀ s ∈ unusedReprs r.Arguments used, s ≠ "") :
    formatMessageRecord p r = .ok (specAutoAppend m (unusedReprs r.Arguments used)) := by
  have hlen0 : ¬ r.Arguments.length = 0 := by
    simpa [List.length_eq_zero] using hargs
  have hinv := resolveMessage_bound p r m used hres
  have hstep : formatMessageRecord p r =
      (if used.length ≥ r.Arguments.length then .ok m
       else .ok (appendUnused r.Arguments used m)) := by
    unfold formatMessageRecord
    rw [if_neg hlen0, hres]
  rw [hstep]
  by_cases hge : used.length ≥ r.Arguments.length
  · rw [if_pos hge]
    have hall : ∀ j, j < r.Arguments.length → j ∈ used :=
      all_positions_used r.Arguments.length used hinv.1 hinv.2 hge
    rw [unusedReprs_nil_of_all_used r.Arguments used hall]
    simp [specAutoAppend]
  · rw [if_neg hge, appendUnused_eq_spec r.Arguments used m hne]

/-- Witness for C2 (amended) at the repository's own auto-append example:
the named bundle resolves in place and every other position is appended in
order. -/
theorem formatMessage_appends_unused_witness :
    formatMessageRecord "p"
      { emptyRecord with
        Message := "Test message \x7bnamed2\x7d"
        Arguments := [.vInt 4, .vStr "hello world", .vOther "0.3", .vNil,
          .vNamed [("named1", .vInt 3), ("named2", .vInt 5)],
          .vOther "test error", .vList [.vOther "x", .vOther "y"]] } =
      .ok "Test message 5 4 hello world 0.3 <nil> test error [x y]" := by
  have h := formatMessage_appends_unused "p"
    { emptyRecord with
      Message := "Test message \x7bnamed2\x7d"
      Arguments := [.vInt 4, .vStr "hello world", .vOther "0.3", .vNil,
        .vNamed [("named1", .vInt 3), ("named2", .vInt 5)],
        .vOther "test error", .vList [.vOther "x", .vOther "y"]] }
    "Test message 5" [4]
    (by simp)
    rfl
    (by intro hm; exact absurd hm (by decide))
  exact h

/-- C5: a string-keyed map argument binds each of its keys as a
placeholder returning the mapped value; the bundle's own position counts
as consumed for the auto-append scan no matter which keys the template
references, while neighbouring scalar positions are not thereby consumed. -/
theorem named_argument_bundles :
    (∀ (used : List Nat) (position : Nat) (pairs : List (String × GoValue)),
      isArgumentUsed used position (.vNamed pairs) = true) ∧
    formatMessageRecord "p"
      { emptyRecord with
        Message := "\x7bz\x7d \x7by\x7d \x7bx\x7d"
        Arguments := [.vNamed [("x", .vInt 1), ("y", .vInt 2), ("z", .vInt 3)]] } =
      .ok "3 2 1" ∧
    formatMessageRecord "p"
      { emptyRecord with
        Message := "\x7bnamed2\x7d"
        Arguments := [.vInt 4, .vNamed [("named1", .vInt 3), ("named2", .vInt 5)]] } =
      .ok "5 4" ∧
    formatMessageRecord "p"
      { emptyRecord with
        Message := "A"
        Arguments := [.vNamed [("k", .vInt 1)]] } = .ok "A" := by
  exact ⟨fun used position pairs => rfl, rfl, rfl, rfl⟩

/-! ## Wire-format round trip lemmas -/

lemma atomic_roundtrip (v : GoValue) (h : v.atomicJson = true) :
    jsonToGoValue (goValueToJson v) = v := by
  cases v with
  | vInt n => rfl
  | vStr s => rfl
  | vNil => rfl
  | vNamed ps => simp [GoValue.atomicJson] at h
  | vObj fs => simp [GoValue.atomicJson] at h
  | vList es => simp [GoValue.atomicJson] at h
  | vOther s => simp [GoValue.atomicJson] at h

lemma pairs_roundtrip (ps : List (String × GoValue))
    (h : ps.all (fun kv => kv.snd.atomicJson) = true) :
    jsonPairsToGo (pairsToJson ps) = ps := by
  induction ps with
  | nil => rfl
  | cons kv rest ih =>
    rw [List.all_cons, Bool.and_eq_true] at h
    simp [pairsToJson, jsonPairsToGo, atomic_roundtrip kv.snd h.1, ih h.2]

lemma elems_atomic_roundtrip (es : List GoValue)
    (h : es.all GoValue.atomicJson = true) :
    jsonElemsToGo (elemsToJson es) = es := by
  induction es with
  | nil => rfl
  | cons v rest ih =>
    rw [List.all_cons, Bool.and_eq_true] at h
    simp [elemsToJson, jsonElemsToGo, atomic_roundtrip v h.1, ih h.2]

lemma jsonSafe_roundtrip (v : GoValue) (h : jsonSafe v = true) :
    jsonToGoValue (goValueToJson v) = v := by
  cases v with
  | vInt n => rfl
  | vStr s => rfl
  | vNil => rfl
  | vNamed ps =>
    simp only [goValueToJson, jsonToGoValue]
    rw [pairs_roundtrip ps (by simpa [jsonSafe] using h)]
  | vList es =>
    simp only [goValueToJson, jsonToGoValue]
    rw [elems_atomic_roundtrip es (by simpa [jsonSafe] using h)]
  | vObj fs => simp [jsonSafe] at h
  | vOther s => simp [jsonSafe] at h

lemma args_roundtrip (args : List GoValue)
    (h : ∀ a ∈ args, jsonSafe a = true) :
    jsonElemsToGo (elemsToJson args) = args := by
  induction args with
  | nil => rfl
  | cons a rest ih =>
    simp [elemsToJson, jsonElemsToGo, jsonSafe_roundtrip a (h a (List.mem_cons_self _ _)),
      ih (fun b hb => h b (List.mem_cons_of_mem _ hb))]

/-- C9: `ToJSON` serializes exactly the wire fields id, type, name,
level.value/name, address, hostname, message, file.function/name/line,
arguments and timestamp.created, omitting `file.path` and the raw creation
time; `FromJSON` of that output restores every serialized field, keeping
only the unserialized `Time` and `File.Path` from the receiving record
(arguments within the scalar/map/slice-of-scalar fragment round-trip to
their exact values). -/
theorem record_wire_round_trip (r r0 : Record)
    (hid : jsonSafe r.ID = true)
    (hargs : ∀ a ∈ r.Arguments, jsonSafe a = true) :
    topFields (recordToJSON r) =
      ["id", "type", "name", "level", "address", "hostname", "message", "file",
        "arguments", "timestamp"] ∧
    subFields (recordToJSON r) "level" = ["value", "name"] ∧
    subFields (recordToJSON r) "file" = ["function", "name", "line"] ∧
    subFields (recordToJSON r) "timestamp" = ["created"] ∧
    recordFromJSON (recordToJSON r) r0 =
      some { r with Time := r0.Time, File := { r.File with Path := r0.File.Path } } := by
  refine ⟨rfl, rfl, rfl, rfl, ?_⟩
  have h1 : jsonToGoValue (goValueToJson r.ID) = r.ID := jsonSafe_roundtrip r.ID hid
  have h2 : jsonElemsToGo (elemsToJson r.Arguments) = r.Arguments :=
    args_roundtrip r.Arguments hargs
  have hcompute : recordFromJSON (recordToJSON r) r0 =
      some
        { ID := jsonToGoValue (goValueToJson r.ID)
          «Type» := r.«Type»
          Name := r.Name
          Time := r0.Time
          Level := { Value := r.Level.Value, Name := r.Level.Name }
          Address := r.Address
          Hostname := r.Hostname
          Message := r.Message
          File :=
            { Function := r.File.Function
              Name := r.File.Name
              Path := r0.File.Path
              Line := r.File.Line }
          Arguments := jsonElemsToGo (elemsToJson r.Arguments)
          Timestamp := { Created := r.Timestamp.Created } } := rfl
  rw [hcompute, h1, h2]

/-- Witness for C9 at a fully populated record and a receiver with its own
call-site path and creation time, which survive the deserialization. -/
theorem record_wire_round_trip_witness :
    recordFromJSON
      (recordToJSON
        { ID := .vStr "a3a28c27"
          «Type» := "log"
          Name := "app"
          Time := 77
          Level := { Value := 20, Name := "info" }
          Address := "10.0.0.7"
          Hostname := "host7"
          Message := "hello \x7bp0\x7d"
          File := { Function := "main", Name := "main.go", Path := "/src/main.go", Line := 41 }
          Arguments := [.vInt 4, .vNamed [("k", .vStr "v")]]
          Timestamp := { Created := "2020-01-01T00:00:00Z" } })
      { emptyRecord with Time := 5, File := { emptyRecord.File with Path := "/other/path.go" } } =
      some
        { ID := .vStr "a3a28c27"
          «Type» := "log"
          Name := "app"
          Time := 5
          Level := { Value := 20, Name := "info" }
          Address := "10.0.0.7"
          Hostname := "host7"
          Message := "hello \x7bp0\x7d"
          File := { Function := "main", Name := "main.go", Path := "/other/path.go", Line := 41 }
          Arguments := [.vInt 4, .vNamed [("k", .vStr "v")]]
          Timestamp := { Created := "2020-01-01T00:00:00Z" } } := by
  have h := record_wire_round_trip
    { ID := .vStr "a3a28c27"
      «Type» := "log"
      Name := "app"
      Time := 77
      Level := { Value := 20, Name := "info" }
      Address := "10.0.0.7"
      Hostname := "host7"
      Message := "hello \x7bp0\x7d"
      File := { Function := "main", Name := "main.go", Path := "/src/main.go", Line := 41 }
      Arguments := [.vInt 4, .vNamed [("k", .vStr "v")]]
      Timestamp := { Created := "2020-01-01T00:00:00Z" } }
    { emptyRecord with Time := 5, File := { emptyRecord.File with Path := "/other/path.go" } }
    rfl
    (by
      intro a ha
      simp only [List.mem_cons, List.not_mem_nil, or_false] at ha
      rcases ha with rfl | rfl <;> rfl)
  exact h.2.2.2.2

end GoLogger
